import Mathlib

/-!
Shallow embedding of the generation-orchestration core of the agent server:
the per-session Redis lock and the `/v2` route control flow
(src/unnamed/part_007), the background-job registry and its SSE fan-out
(src/unnamed/part_007), and the Codex process adapter and JSONL tailer
(src/src/services/codex.ts).  Definitions are translated from the source;
theorems settle the specification's testable properties against them.
-/

namespace AgentServer

/-! ### Redis-backed session lock (src/unnamed/part_007:323-332, 617-620)

The store is modelled as an association list from key to absolute expiry
time (in seconds).  `SET key "1" EX ttl NX` creates the key only when it is
absent or expired; `DEL` removes it unconditionally. -/

abbrev RedisStore := List (String × Nat)

def redisLookup (st : RedisStore) (k : String) : Option Nat :=
  match st.find? (fun e => e.1 == k) with
  | some e => some e.2
  | none => none

def redisErase (st : RedisStore) (k : String) : RedisStore :=
  st.filter (fun e => e.1 != k)

/-- A key is live at time `t` when it exists and its expiry lies in the future. -/
def keyLive (st : RedisStore) (k : String) (t : Nat) : Bool :=
  match redisLookup st k with
  | some e => decide (t < e)
  | none => false

/-- `redisClient.set(key, "1", "EX", ttl, "NX")` at time `t`: create-if-absent
with expiry `t + ttl`, returning whether the key was created. -/
def redisSetNxEx (st : RedisStore) (k : String) (ttl t : Nat) : RedisStore × Bool :=
  if keyLive st k t then (st, false)
  else ((k, t + ttl) :: redisErase st k, true)

/-- `redisClient.del(key)`. -/
def redisDel (st : RedisStore) (k : String) : RedisStore :=
  redisErase st k

/-- 1 hour expiration (part_007:328). -/
def lockTTL : Nat := 3600

/-- The lock key `session:active:<sessionId>` (part_007:323). -/
def activeSessionKey (sessionId : String) : String :=
  "session:active:" ++ sessionId

/-- Lock acquisition as performed by the `/v2` route (part_007:324-330). -/
def acquire (st : RedisStore) (sessionId : String) (t : Nat) : RedisStore × Bool :=
  redisSetNxEx st (activeSessionKey sessionId) lockTTL t

/-- Lock release as performed in the `finally` blocks (part_007:619, 469). -/
def release (st : RedisStore) (sessionId : String) : RedisStore :=
  redisDel st (activeSessionKey sessionId)

/-- An operation another request may perform on the lock store between two
acquisitions: an acquisition attempt for some session at some time, or a
release for some session. -/
inductive LockOp
  | acq (sessionId : String) (t : Nat)
  | rel (sessionId : String)
deriving DecidableEq

def applyLockOp (st : RedisStore) : LockOp → RedisStore
  | .acq sid t => (acquire st sid t).1
  | .rel sid => release st sid

def runLockOps (st : RedisStore) (ops : List LockOp) : RedisStore :=
  ops.foldl applyLockOp st

/-- Bound on the time of an acquisition attempt; release operations are
unconstrained. -/
def lockOpBefore (t2 : Nat) : LockOp → Bool
  | .acq _ u => decide (u ≤ t2)
  | .rel _ => true

/-! ### The `/v2` generation route control flow (src/unnamed/part_007:259-621)

Only the effect-relevant skeleton is embedded: the per-session
`sessionAbortControllers` map and the Redis lock state, together with the
order of the statements that touch them.  Await points that can reject are
oracles (`Bool` parameters).  Both foreground and background mode share this
skeleton: the abort-controller registration, lock acquisition, the worktree
block (whose errors are caught, part_007:370-373), and the unguarded
`createUserMessage` await (part_007:374) all precede the mode split, and
both modes end in a `finally` that deletes the controller entry and the lock
key (part_007:617-620 foreground, 465-470 background). -/

def mapSet (m : List (String × Nat)) (k : String) (v : Nat) : List (String × Nat) :=
  (k, v) :: m.filter (fun e => e.1 != k)

def mapDelete (m : List (String × Nat)) (k : String) : List (String × Nat) :=
  m.filter (fun e => e.1 != k)

def mapGet (m : List (String × Nat)) (k : String) : Option Nat :=
  match m.find? (fun e => e.1 == k) with
  | some e => some e.2
  | none => none

structure ServerState where
  redis : RedisStore
  sessionAbortControllers : List (String × Nat)
deriving DecidableEq

inductive GenOutcome
  | busy
  | crashed
  | completed
  | failedRun
deriving DecidableEq

/-- Control-flow skeleton of `router.post "/v2"`.  `controllerId` is the
identity of the fresh `AbortController`; `t` the current time;
`createUserMessageFails` tells whether the `createUserMessage` await at
part_007:374 rejects; `workFails` whether the generation body throws (the
`catch` branch runs, part_007:609-616 / 455-464).  Statement order follows
the source: registration of the controller (part_007:321-322) precedes the
lock check (part_007:324-332); the `createUserMessage` await sits between
the lock acquisition and the `try`/`finally`; the `finally` removes the
controller entry and deletes the lock key. -/
def postGenerateV2 (st : ServerState) (sessionId : String) (controllerId t : Nat)
    (createUserMessageFails workFails : Bool) : ServerState × GenOutcome :=
  let st1 : ServerState :=
    { st with sessionAbortControllers :=
        mapSet st.sessionAbortControllers sessionId controllerId }
  let acqRes := acquire st1.redis sessionId t
  let st2 : ServerState := { st1 with redis := acqRes.1 }
  if !acqRes.2 then
    (st2, GenOutcome.busy)
  else if createUserMessageFails then
    (st2, GenOutcome.crashed)
  else
    let st3 : ServerState :=
      { st2 with
          sessionAbortControllers := mapDelete st2.sessionAbortControllers sessionId,
          redis := redisDel st2.redis (activeSessionKey sessionId) }
    (st3, if workFails then GenOutcome.failedRun else GenOutcome.completed)

/-! ### Background job registry (src/unnamed/part_007:27-42, 379-471, 624-694)

A `BackgroundJob` mirrors the source record; `createJob` is the literal in
part_007:384-393.  The background dispatch (`setImmediate`, part_007:437-471)
is split into its two status phases so every status assignment in the source
is visible as a model state. -/

inductive JobStatus
  | queued
  | running
  | completed
  | failed
  | cancelled
deriving DecidableEq

structure BackgroundJob where
  taskId : String
  sessionId : String
  status : JobStatus
  createdAt : Nat
  startedAt : Option Nat := none
  finishedAt : Option Nat := none
  error : Option String := none
  events : List String := []
deriving DecidableEq

/-- Job allocation (part_007:384-395): status `queued`, empty event log. -/
def createJob (taskId sessionId : String) (now : Nat) : BackgroundJob :=
  { taskId := taskId, sessionId := sessionId, status := JobStatus.queued,
    createdAt := now }

/-- A notification published on the job's emitter: an `"event"` with a line,
or the terminal `"done"`. -/
inductive JobNotification
  | ev (line : String)
  | done
deriving DecidableEq

/-- The error event pushed by the background `catch` branch
(part_007:457-462): `JSON.stringify({type:"error", error: message})`. -/
def errorEventLine (message : String) : String :=
  "\x7b\"type\":\"error\",\"error\":\"" ++ message ++ "\"\x7d"

/-- First phase of the `setImmediate` dispatch (part_007:438-439): status
becomes `running` and the start time is recorded before the work executes. -/
def dispatchStart (job : BackgroundJob) (tStart : Nat) : BackgroundJob :=
  { job with status := JobStatus.running, startedAt := some tStart }

/-- Remainder of the dispatch.  The work (`runGenerationCore`) is abstracted
by the lines it passed to `onEvent`, in order, and by `workError`
(`none` = it resolved; `some msg` = it threw `msg`).  `onEvent`
(part_007:440-443) appends each line to the event log and publishes it; on
success status becomes `completed` (part_007:454); on error an error event
is emitted, status becomes `failed` and the error is recorded
(part_007:455-464); the `finally` records the finish time and publishes the
terminal `done` exactly once (part_007:465-467).  Aborting the job's
cancellation token mid-run only truncates the work's output; it is not a
separate outcome and assigns no status. -/
def dispatchFinish (job : BackgroundJob) (workEvents : List String)
    (workError : Option String) (tFinish : Nat) : BackgroundJob × List JobNotification :=
  let job1 : BackgroundJob := { job with events := job.events ++ workEvents }
  let pubs1 : List JobNotification := workEvents.map JobNotification.ev
  let res : BackgroundJob × List JobNotification :=
    match workError with
    | none => ({ job1 with status := JobStatus.completed }, pubs1)
    | some msg =>
        let jobF : BackgroundJob :=
          { job1 with
              events := job1.events ++ [errorEventLine msg],
              status := JobStatus.failed,
              error := some msg }
        (jobF, pubs1 ++ [JobNotification.ev (errorEventLine msg)])
  ({ res.1 with finishedAt := some tFinish }, res.2 ++ [JobNotification.done])

/-- The whole background dispatch (part_007:437-471). -/
def dispatchRun (job : BackgroundJob) (workEvents : List String)
    (workError : Option String) (tStart tFinish : Nat) :
    BackgroundJob × List JobNotification :=
  dispatchFinish (dispatchStart job tStart) workEvents workError tFinish

/-! ### Job stream fan-out (src/unnamed/part_007:440-443, 664-694)

`GET /v2/jobs/:taskId/stream` replays `job.events` and registers its live
listener in one synchronous block (part_007:668-683) — no await separates
them, so registration is atomic with respect to `onEvent`, which itself
appends to `job.events` and then notifies every currently registered
listener (part_007:440-443).  The trace semantics below makes each of these
compound steps one atomic operation. -/

structure StreamSubscriber where
  subId : Nat
  replay : List String
  live : List String
deriving DecidableEq

/-- What one attached consumer has observed: the replayed buffer followed by
the live events delivered to it. -/
def observedEvents (s : StreamSubscriber) : List String :=
  s.replay ++ s.live

structure JobChannel where
  events : List String
  subscribers : List StreamSubscriber
deriving DecidableEq

def emptyChannel : JobChannel :=
  { events := [], subscribers := [] }

inductive StreamOp
  | emit (line : String)
  | subscribe (subId : Nat)
  | unsubscribe (subId : Nat)
deriving DecidableEq

def applyStreamOp (ch : JobChannel) : StreamOp → JobChannel
  | .emit line =>
      { events := ch.events ++ [line],
        subscribers := ch.subscribers.map
          (fun s => { s with live := s.live ++ [line] }) }
  | .subscribe i =>
      if ch.subscribers.any (fun s => s.subId == i) then ch
      else
        { ch with subscribers :=
            ch.subscribers ++ [{ subId := i, replay := ch.events, live := [] }] }
  | .unsubscribe i =>
      { ch with subscribers := ch.subscribers.filter (fun s => s.subId != i) }

def runStreamOps (ch : JobChannel) (ops : List StreamOp) : JobChannel :=
  ops.foldl applyStreamOp ch

def findSubscriber (ch : JobChannel) (i : Nat) : Option StreamSubscriber :=
  ch.subscribers.find? (fun s => s.subId == i)

/-- The lines emitted by a trace, in emission order. -/
def emittedLines (ops : List StreamOp) : List String :=
  ops.filterMap (fun op => match op with | .emit l => some l | _ => none)

/-! ### Codex process adapter (src/src/services/codex.ts:222-376)

Only the turn-final behaviour and the discovery race are embedded; the
events a turn yields are `init` (at most one, from the background discovery)
and the terminal `done`. -/

inductive CodexStreamEvent
  | init (session_file_path : String) (session_id : String)
  | done
deriving DecidableEq

def countDoneEvents (evs : List CodexStreamEvent) : Nat :=
  evs.countP (fun e => decide (e = CodexStreamEvent.done))

/-- Exit handling at the end of `queryCodex` (codex.ts:357-367): after the
drain loop, the process exit code is awaited; `pre` are the events already
yielded, `aborted` is the flag set by the abort listener (codex.ts:252-266).
Source: `if (!aborted && exitCode !== 0) throw ...; if (!aborted) yield done`.
Result: the full yielded sequence and the error propagated to the caller,
if any. -/
def queryCodexFinish (pre : List CodexStreamEvent) (aborted : Bool) (exitCode : Int) :
    List CodexStreamEvent × Option String :=
  if !aborted && exitCode != 0 then
    (pre, some ("codex exited with code " ++ toString exitCode))
  else if !aborted then
    (pre ++ [CodexStreamEvent.done], none)
  else
    (pre, none)

inductive WaitResult
  | found (path : String)
  | abortedWait
  | timedOut
deriving DecidableEq

/-- First poll tick at or after the moment `a` (ms) when the session file
appears: an immediate check at 0, then every `intervalMs`
(codex.ts:152-154, 192). -/
def firstPollAtOrAfter (intervalMs a : Nat) : Nat :=
  if a = 0 then 0 else intervalMs * ((a + intervalMs - 1) / intervalMs)

/-- `waitForSessionFileById` (codex.ts:144-201): polls every `intervalMs`
until the session file appears, rejects on abort immediately, and rejects
with a timeout error once `timeoutMs + 5` elapses.  `appearsAt` is the
moment the file first exists (`none` = never); `abortAt` the moment the
signal fires (`none` = never).  The promise settles with the earliest
applicable event. -/
def waitForSessionFileById (path : String) (appearsAt abortAt : Option Nat)
    (timeoutMs intervalMs : Nat) : WaitResult :=
  let tTimeout := timeoutMs + 5
  let tFind : Option Nat := appearsAt.map (firstPollAtOrAfter intervalMs)
  match tFind, abortAt with
  | some f, some b =>
      if b < tTimeout && b < f then WaitResult.abortedWait
      else if f < tTimeout then WaitResult.found path
      else if b < tTimeout then WaitResult.abortedWait
      else WaitResult.timedOut
  | some f, none =>
      if f < tTimeout then WaitResult.found path else WaitResult.timedOut
  | none, some b =>
      if b < tTimeout then WaitResult.abortedWait else WaitResult.timedOut
  | none, none => WaitResult.timedOut

/-- The stderr handler of `queryCodex` (codex.ts:288-323): when a session id
is parsed it starts `waitForSessionFileById` and attaches
`.then(push init).catch(err => console.error(...))` — a rejection
(timeout or abort) is logged and swallowed; only a resolution contributes an
`init` event to the generator's queue. -/
def stderrDiscoveryEvents (sessionId : String) (w : WaitResult) :
    List CodexStreamEvent :=
  match w with
  | WaitResult.found p => [CodexStreamEvent.init p sessionId]
  | WaitResult.abortedWait => []
  | WaitResult.timedOut => []

/-- One initial (non-resumed) CLI turn from session-id discovery to exit:
the events it yields and the error it propagates. -/
def queryCodexTurn (sessionId : String) (w : WaitResult) (aborted : Bool)
    (exitCode : Int) : List CodexStreamEvent × Option String :=
  queryCodexFinish (stderrDiscoveryEvents sessionId w) aborted exitCode

/-! ### JSONL log tailer (src/src/services/codex.ts:385-549)

File content is a list of bytes (`List Nat`, each under 256); `none` for the
file argument models ENOENT.  A `TailState` carries the source's mutable
state: whether a handle is open, the consumed byte `offset`, the `pending`
partial-line string buffer (a character list — the source accumulates a
JavaScript string), and (for the model) the lines enqueued to the consumer
so far.  Each read chunk is decoded separately with
`buffer.subarray(0, bytesRead).toString("utf8")` (codex.ts:482); the decoder
below follows the WHATWG UTF-8 decoder that Node uses, emitting one U+FFFD
replacement character per maximal ill-formed subpart — in particular a
multi-byte character split across read passes or the 1 MiB buffer boundary
is garbled.  The `reading`/`readQueued` coalescing guards
(codex.ts:442-447, 494-499) serialize overlapping change notifications into
complete sequential read passes, so each model step is one full pass. -/

def replacementChar : Char := '�'

/-- Lower bound of the constrained second byte, per the WHATWG UTF-8
decoder: lead E0 tightens it to A0 (rejecting overlongs), F0 to 90,
otherwise 80. -/
def utf8Cont2Lo (b1 : Nat) : Nat :=
  if b1 = 0xE0 then 0xA0 else if b1 = 0xF0 then 0x90 else 0x80

/-- Upper bound of the constrained second byte: lead ED tightens it to 9F
(excluding surrogates), F4 to 8F (capping at U+10FFFF), otherwise BF. -/
def utf8Cont2Hi (b1 : Nat) : Nat :=
  if b1 = 0xED then 0x9F else if b1 = 0xF4 then 0x8F else 0xBF

/-- `Buffer.toString("utf8")`: WHATWG UTF-8 decoding with replacement.  An
invalid byte where a continuation is expected emits U+FFFD and resumes at
that byte; a truncated trailing sequence emits a single U+FFFD. -/
def utf8DecodeReplace : List Nat → List Char
  | [] => []
  | b1 :: bs =>
    if b1 < 0x80 then
      Char.ofNat b1 :: utf8DecodeReplace bs
    else if 0xC2 ≤ b1 ∧ b1 ≤ 0xDF then
      match bs with
      | [] => [replacementChar]
      | b2 :: bs2 =>
          if 0x80 ≤ b2 ∧ b2 ≤ 0xBF then
            Char.ofNat ((b1 - 0xC0) * 0x40 + (b2 - 0x80)) :: utf8DecodeReplace bs2
          else replacementChar :: utf8DecodeReplace (b2 :: bs2)
    else if 0xE0 ≤ b1 ∧ b1 ≤ 0xEF then
      match bs with
      | [] => [replacementChar]
      | b2 :: bs2 =>
          if utf8Cont2Lo b1 ≤ b2 ∧ b2 ≤ utf8Cont2Hi b1 then
            match bs2 with
            | [] => [replacementChar]
            | b3 :: bs3 =>
                if 0x80 ≤ b3 ∧ b3 ≤ 0xBF then
                  Char.ofNat ((b1 - 0xE0) * 0x1000 + (b2 - 0x80) * 0x40 + (b3 - 0x80))
                    :: utf8DecodeReplace bs3
                else replacementChar :: utf8DecodeReplace (b3 :: bs3)
          else replacementChar :: utf8DecodeReplace (b2 :: bs2)
    else if 0xF0 ≤ b1 ∧ b1 ≤ 0xF4 then
      match bs with
      | [] => [replacementChar]
      | b2 :: bs2 =>
          if utf8Cont2Lo b1 ≤ b2 ∧ b2 ≤ utf8Cont2Hi b1 then
            match bs2 with
            | [] => [replacementChar]
            | b3 :: bs3 =>
                if 0x80 ≤ b3 ∧ b3 ≤ 0xBF then
                  match bs3 with
                  | [] => [replacementChar]
                  | b4 :: bs4 =>
                      if 0x80 ≤ b4 ∧ b4 ≤ 0xBF then
                        Char.ofNat ((b1 - 0xF0) * 0x40000 + (b2 - 0x80) * 0x1000
                            + (b3 - 0x80) * 0x40 + (b4 - 0x80))
                          :: utf8DecodeReplace bs4
                      else replacementChar :: utf8DecodeReplace (b4 :: bs4)
                else replacementChar :: utf8DecodeReplace (b3 :: bs3)
          else replacementChar :: utf8DecodeReplace (b2 :: bs2)
    else
      replacementChar :: utf8DecodeReplace bs

/-- A byte sequence that decodes without any replacement character: every
UTF-8 sequence in it is complete and valid. -/
def utf8WellFormed : List Nat → Bool
  | [] => true
  | b1 :: bs =>
    if b1 < 0x80 then utf8WellFormed bs
    else if 0xC2 ≤ b1 ∧ b1 ≤ 0xDF then
      match bs with
      | [] => false
      | b2 :: bs2 =>
          if 0x80 ≤ b2 ∧ b2 ≤ 0xBF then utf8WellFormed bs2 else false
    else if 0xE0 ≤ b1 ∧ b1 ≤ 0xEF then
      match bs with
      | [] => false
      | b2 :: bs2 =>
          if utf8Cont2Lo b1 ≤ b2 ∧ b2 ≤ utf8Cont2Hi b1 then
            match bs2 with
            | [] => false
            | b3 :: bs3 =>
                if 0x80 ≤ b3 ∧ b3 ≤ 0xBF then utf8WellFormed bs3 else false
          else false
    else if 0xF0 ≤ b1 ∧ b1 ≤ 0xF4 then
      match bs with
      | [] => false
      | b2 :: bs2 =>
          if utf8Cont2Lo b1 ≤ b2 ∧ b2 ≤ utf8Cont2Hi b1 then
            match bs2 with
            | [] => false
            | b3 :: bs3 =>
                if 0x80 ≤ b3 ∧ b3 ≤ 0xBF then
                  match bs3 with
                  | [] => false
                  | b4 :: bs4 =>
                      if 0x80 ≤ b4 ∧ b4 ≤ 0xBF then utf8WellFormed bs4 else false
                else false
          else false
    else false

/-- Whitespace removed by JavaScript's `line.trim()` (ECMAScript WhiteSpace
and LineTerminator). -/
def isJsWhitespace (c : Char) : Bool :=
  c = ' ' || c = '\t' || c = '\n' || c = '\r' ||
  c = '\x0b' || c = '\x0c' || c = '\u00A0' || c = '\uFEFF' ||
  c = '\u1680' || (decide (0x2000 ≤ c.toNat) && decide (c.toNat ≤ 0x200A)) ||
  c = '\u2028' || c = '\u2029' || c = '\u202F' || c = '\u205F' || c = '\u3000'

def trimChars (l : List Char) : List Char :=
  ((l.dropWhile isJsWhitespace).reverse.dropWhile isJsWhitespace).reverse

/-- Repeated `pending.indexOf("\n")` extraction (codex.ts:483-488): the
complete lines before each newline, and the trailing partial line. -/
def lineSplit : List Char → List (List Char) × List Char
  | [] => ([], [])
  | c :: cs =>
    let r := lineSplit cs
    if c = '\n' then ([] :: r.1, r.2)
    else
      match r.1 with
      | [] => ([], c :: r.2)
      | l :: ls => ((c :: l) :: ls, r.2)

/-- `const trimmed = line.trim(); if (trimmed) enqueue(trimmed)`
(codex.ts:489-490). -/
def emitLines (ls : List (List Char)) : List (List Char) :=
  (ls.map trimChars).filter (fun l => l ≠ [])

structure TailState where
  handleOpen : Bool
  offset : Nat
  pending : List Char
  out : List (List Char)
deriving DecidableEq

def initialTailState : TailState :=
  { handleOpen := false, offset := 0, pending := [], out := [] }

/-- `openIfNeeded(initial)` (codex.ts:426-439): no-op while a handle is
open; on ENOENT wait for the watcher; otherwise open and set
`offset = initial ? (startAtEnd ? stat.size : 0) : 0`. -/
def openIfNeeded (initial startAtEnd : Bool) (file : Option (List Nat))
    (s : TailState) : TailState :=
  if s.handleOpen then s
  else
    match file with
    | none => s
    | some content =>
        { s with
            handleOpen := true,
            offset := if initial then (if startAtEnd then content.length else 0) else 0 }

/-- One buffer's worth of bytes: decode the chunk on its own with
`buffer.subarray(0, bytesRead).toString("utf8")`, append the resulting
string to `pending`, and drain the complete lines (codex.ts:482-491). -/
def consumeChunk (s : TailState) (chunk : List Nat) : TailState :=
  let r := lineSplit (s.pending ++ utf8DecodeReplace chunk)
  { s with pending := r.2, out := s.out ++ emitLines r.1 }

/-- `Buffer.allocUnsafe(Math.min(toRead, 1 << 20))` (codex.ts:473). -/
def bufCap (toRead : Nat) : Nat :=
  min toRead 1048576

/-- The read loop (codex.ts:476-492): read up to `cap` bytes per pass
starting at `pos`, decode and line-split each chunk separately, then record
`offset := position`.  `cap = 0` models `bytesRead <= 0` ending the loop. -/
def readChunks (content : List Nat) (cap pos remaining : Nat) (s : TailState) :
    TailState :=
  if remaining = 0 ∨ cap = 0 then { s with offset := pos }
  else
    let chunkSize := min cap remaining
    let chunk := (content.drop pos).take chunkSize
    readChunks content cap (pos + chunkSize) (remaining - chunkSize)
      (consumeChunk s chunk)
termination_by remaining
decreasing_by
  simp_wf
  omega

/-- One complete read pass `readNew` (codex.ts:441-501): open the handle if
needed (offset 0 when opened here); on stat ENOENT (rotation) close the
handle and reset offset and pending (codex.ts:456-467); otherwise read
exactly the bytes between `offset` and the current size. -/
def readNew (startAtEnd : Bool) (file : Option (List Nat)) (s : TailState) :
    TailState :=
  let s1 := openIfNeeded false startAtEnd file s
  if !s1.handleOpen then s1
  else
    match file with
    | none =>
        { handleOpen := false, offset := 0, pending := [], out := s1.out }
    | some content =>
        if content.length ≤ s1.offset then s1
        else
          let toRead := content.length - s1.offset
          readChunks content (bufCap toRead) s1.offset toRead s1

inductive FsEvent
  | change
  | rename
deriving DecidableEq

/-- The directory watcher callback for the tailed file (codex.ts:504-524):
`change` triggers a read pass; `rename` closes the handle, resets offset
and pending, reopens with `initial = true`, and reads. -/
def tailStep (startAtEnd : Bool) (file : Option (List Nat)) (s : TailState) :
    FsEvent → TailState
  | FsEvent.change => readNew startAtEnd file s
  | FsEvent.rename =>
      let s1 : TailState :=
        { handleOpen := false, offset := 0, pending := [], out := s.out }
      let s2 := openIfNeeded true startAtEnd file s1
      readNew startAtEnd file s2

/-- Tail start-up (codex.ts:526-529): open if the file is already present;
when not starting at the end, do an immediate read pass. -/
def tailJsonlFileStart (startAtEnd : Bool) (file : Option (List Nat)) :
    TailState :=
  let s := openIfNeeded true startAtEnd file initialTailState
  if !startAtEnd then readNew startAtEnd file s else s

/-- Run the tailer over a sequence of appends: before each change
notification's read pass the file grows by the corresponding byte delta.
Bursts of writes whose notifications coalesce correspond to merged deltas,
so quantifying over all delta decompositions covers them. -/
def runAppends (startAtEnd : Bool) (file : List Nat) (deltas : List (List Nat))
    (s : TailState) : TailState :=
  match deltas with
  | [] => s
  | d :: ds =>
      runAppends startAtEnd (file ++ d) ds (readNew startAtEnd (some (file ++ d)) s)

/-- Reading the final file content in one go, per the spec's description:
decode it, split on newlines, exclude the trailing (possibly incomplete)
segment, trim each line, drop empties. -/
def fullReadLines (content : List Char) : List (List Char) :=
  (((content.splitOn '\n').dropLast).map trimChars).filter (fun l => l ≠ [])

end AgentServer

namespace AgentServer

/-! ### Supporting lemmas for the lock store -/

lemma find?_filter_ne (m : List (String × Nat)) (k k' : String) (hne : k ≠ k') :
    (m.filter (fun e => e.1 != k')).find? (fun e => e.1 == k)
      = m.find? (fun e => e.1 == k) := by
  induction m with
  | nil => simp
  | cons a m ih =>
    by_cases h1 : a.1 = k'
    · have h2 : (k' == k) = false := by
        simp
        exact Ne.symm hne
      simp [List.filter_cons, List.find?_cons, h1, h2, ih]
    · by_cases h2 : a.1 = k
      · simp [List.filter_cons, List.find?_cons, h1, h2, hne]
      · simp [List.filter_cons, List.find?_cons, h1, h2, ih]

lemma redisLookup_erase_ne (st : RedisStore) (k k' : String) (hne : k ≠ k') :
    redisLookup (redisErase st k') k = redisLookup st k := by
  unfold redisLookup redisErase
  rw [find?_filter_ne st k k' hne]

lemma redisLookup_cons_ne (a : String × Nat) (st : RedisStore) (k : String)
    (h : a.1 ≠ k) : redisLookup (a :: st) k = redisLookup st k := by
  have hb : (a.1 == k) = false := by simpa using h
  simp [redisLookup, List.find?_cons, hb]

lemma activeSessionKey_inj {a b : String}
    (h : activeSessionKey a = activeSessionKey b) : a = b := by
  have h2 : ("session:active:" ++ a).data = ("session:active:" ++ b).data :=
    congrArg String.data h
  simp [String.data_append] at h2
  exact String.ext h2

lemma runLockOps_preserves_entry (ops : List LockOp) (st : RedisStore)
    (sid : String) (e : Nat)
    (hlook : redisLookup st (activeSessionKey sid) = some e)
    (hrel : ∀ op ∈ ops, op ≠ LockOp.rel sid)
    (hacqt : ∀ s u, LockOp.acq s u ∈ ops → u < e) :
    redisLookup (runLockOps st ops) (activeSessionKey sid) = some e := by
  induction ops generalizing st with
  | nil => simpa [runLockOps] using hlook
  | cons op ops ih =>
    have hstep : redisLookup (applyLockOp st op) (activeSessionKey sid) = some e := by
      cases op with
      | acq s u =>
        by_cases hs : activeSessionKey s = activeSessionKey sid
        · have hu : u < e := hacqt s u (List.mem_cons_self _ _)
          have hlive : keyLive st (activeSessionKey s) u = true := by
            rw [hs]
            simp [keyLive, hlook, hu]
          simp only [applyLockOp, acquire]
          rw [show redisSetNxEx st (activeSessionKey s) lockTTL u
              = (st, false) from by simp [redisSetNxEx, hlive]]
          exact hlook
        · by_cases hlive : keyLive st (activeSessionKey s) u = true
          · simp only [applyLockOp, acquire]
            rw [show redisSetNxEx st (activeSessionKey s) lockTTL u
                = (st, false) from by simp [redisSetNxEx, hlive]]
            exact hlook
          · simp only [applyLockOp, acquire]
            rw [show redisSetNxEx st (activeSessionKey s) lockTTL u
                = ((activeSessionKey s, u + lockTTL) :: redisErase st (activeSessionKey s), true)
                from by simp [redisSetNxEx, hlive]]
            rw [redisLookup_cons_ne _ _ _ hs]
            rw [redisLookup_erase_ne st _ _ (Ne.symm hs)]
            exact hlook
      | rel s =>
        have hs : activeSessionKey s ≠ activeSessionKey sid := by
          intro h
          exact hrel (LockOp.rel s) (List.mem_cons_self _ _)
            (by rw [activeSessionKey_inj h])
        simp only [applyLockOp, release, redisDel]
        rw [redisLookup_erase_ne st _ _ (Ne.symm hs)]
        exact hlook
    have hrun : runLockOps st (op :: ops) = runLockOps (applyLockOp st op) ops := rfl
    rw [hrun]
    exact ih (applyLockOp st op) hstep
      (fun o ho => hrel o (List.mem_cons_of_mem _ ho))
      (fun s u hu => hacqt s u (List.mem_cons_of_mem _ hu))

/-! ### Claim theorems: session lock and route control flow -/

/-- C1 (corrected): within the lock's TTL window, the Session Lock is
mutually exclusive.  If an acquire for a session id succeeds at time `t1`,
then any later acquire for the same session id at a time `t2 < t1 + lockTTL`
fails, provided no release for that session id ran in between (intervening
acquisitions and releases for arbitrary sessions, at times up to `t2`, are
allowed).  The claim as stated — exclusion until release, with no time
bound — fails because `SET ... EX 3600 NX` expires the key after one hour;
see the counterexample. -/
theorem sessionLock_mutual_exclusion_within_ttl
    (st : RedisStore) (sid : String) (t1 t2 : Nat) (ops : List LockOp)
    (hacq : (acquire st sid t1).2 = true)
    (hrel : ∀ op ∈ ops, op ≠ LockOp.rel sid)
    (hacqt : ∀ op ∈ ops, lockOpBefore t2 op = true)
    (httl : t2 < t1 + lockTTL) :
    (acquire (runLockOps (acquire st sid t1).1 ops) sid t2).2 = false := by
  have hnotlive : keyLive st (activeSessionKey sid) t1 = false := by
    by_cases h : keyLive st (activeSessionKey sid) t1 = true
    · exfalso
      have : (acquire st sid t1).2 = false := by
        simp [acquire, redisSetNxEx, h]
      rw [this] at hacq
      exact Bool.false_ne_true hacq
    · simpa using h
  have hst1 : (acquire st sid t1).1
      = (activeSessionKey sid, t1 + lockTTL) :: redisErase st (activeSessionKey sid) := by
    simp [acquire, redisSetNxEx, hnotlive]
  have hlook : redisLookup (acquire st sid t1).1 (activeSessionKey sid)
      = some (t1 + lockTTL) := by
    rw [hst1]
    simp [redisLookup, List.find?_cons]
  have hpres := runLockOps_preserves_entry ops (acquire st sid t1).1 sid (t1 + lockTTL)
    hlook hrel
    (by
      intro s u hu
      have := hacqt (LockOp.acq s u) hu
      simp [lockOpBefore] at this
      exact lt_of_le_of_lt this httl)
  have hlive : keyLive (runLockOps (acquire st sid t1).1 ops) (activeSessionKey sid) t2
      = true := by
    simp [keyLive, hpres, httl]
  revert hlive
  generalize runLockOps (acquire st sid t1).1 ops = stF
  intro hlive
  simp [acquire, redisSetNxEx, hlive]

theorem sessionLock_mutual_exclusion_within_ttl_witness :
    (acquire (runLockOps (acquire [] "s" 0).1 [LockOp.acq "other" 5]) "s" 10).2 = false :=
  sessionLock_mutual_exclusion_within_ttl [] "s" 0 10 [LockOp.acq "other" 5]
    (by decide) (by decide) (by decide) (by decide)

/-- C1 counterexample: an acquire for session `"s"` succeeds at time 0; with
no release having run, a second acquire for the same session id succeeds at
time 3600 because the key's one-hour expiry has lapsed — refuting the
unbounded "no second acquire may succeed until the first is released". -/
theorem sessionLock_reacquire_after_ttl_expiry :
    (acquire [] "s" 0).2 = true ∧
    (acquire (acquire [] "s" 0).1 "s" lockTTL).2 = true := by
  decide

/-- C2 (code_bug): a generation request that acquires the Session Lock and
whose `createUserMessage` await (part_007:374) rejects exits *before* the
`try`/`finally` is entered: the lock key is still live afterwards and the
session's abort-controller registration is still present, contradicting the
required unconditional release on every exit path. -/
theorem generate_lock_leaked_on_createUserMessage_failure :
    (postGenerateV2 ⟨[], []⟩ "s" 7 0 true false).2 = GenOutcome.crashed ∧
    keyLive (postGenerateV2 ⟨[], []⟩ "s" 7 0 true false).1.redis
      (activeSessionKey "s") 1 = true ∧
    mapGet (postGenerateV2 ⟨[], []⟩ "s" 7 0 true false).1.sessionAbortControllers "s"
      = some 7 := by
  decide

/-- C4 (code_bug): a request rejected as session-busy is not effect-free.
`sessionAbortControllers.set` runs before the lock check (part_007:321-324),
so the busy-rejected request overwrites the in-flight generation's
registration (controller 1) with its own fresh controller (controller 2) and
leaves it there. -/
theorem sessionBusy_rejection_clobbers_abort_controller :
    (postGenerateV2 ⟨(acquire [] "s" 0).1, mapSet [] "s" 1⟩ "s" 2 10 false false).2
      = GenOutcome.busy ∧
    mapGet (postGenerateV2 ⟨(acquire [] "s" 0).1, mapSet [] "s" 1⟩ "s" 2 10
        false false).1.sessionAbortControllers "s" = some 2 ∧
    mapGet (mapSet [] "s" 1) "s" = some 1 := by
  decide

/-! ### Supporting lemmas for the job stream fan-out -/

/-- Invariant of the fan-out: every registered consumer has observed exactly
the job's event log. -/
def channelInv (ch : JobChannel) : Prop :=
  ∀ s ∈ ch.subscribers, observedEvents s = ch.events

lemma applyStreamOp_inv (ch : JobChannel) (op : StreamOp) (h : channelInv ch) :
    channelInv (applyStreamOp ch op) := by
  cases op with
  | emit line =>
      intro s hs
      simp only [applyStreamOp, List.mem_map] at hs
      obtain ⟨t, ht, rfl⟩ := hs
      have hobs := h t ht
      simp only [observedEvents] at hobs ⊢
      simp only [applyStreamOp, ← List.append_assoc, hobs]
  | subscribe i =>
      intro s hs
      have hev : (applyStreamOp ch (StreamOp.subscribe i)).events = ch.events := by
        simp only [applyStreamOp]
        by_cases hany : (ch.subscribers.any fun t => t.subId == i) = true
        · rw [if_pos hany]
        · rw [if_neg hany]
      rw [hev]
      simp only [applyStreamOp] at hs
      by_cases hany : (ch.subscribers.any fun t => t.subId == i) = true
      · rw [if_pos hany] at hs
        exact h s hs
      · rw [if_neg hany] at hs
        simp only [List.mem_append, List.mem_singleton] at hs
        cases hs with
        | inl hmem => exact h s hmem
        | inr heq =>
            subst heq
            simp [observedEvents]
  | unsubscribe i =>
      intro s hs
      simp only [applyStreamOp, List.mem_filter] at hs
      exact h s hs.1

lemma runStreamOps_inv (ops : List StreamOp) (ch : JobChannel) (h : channelInv ch) :
    channelInv (runStreamOps ch ops) := by
  induction ops generalizing ch with
  | nil => exact h
  | cons op ops ih => exact ih (applyStreamOp ch op) (applyStreamOp_inv ch op h)

lemma runStreamOps_events (ops : List StreamOp) (ch : JobChannel) :
    (runStreamOps ch ops).events = ch.events ++ emittedLines ops := by
  induction ops generalizing ch with
  | nil => simp [runStreamOps, emittedLines]
  | cons op ops ih =>
      have hstep : runStreamOps ch (op :: ops) = runStreamOps (applyStreamOp ch op) ops := rfl
      rw [hstep, ih]
      cases op with
      | emit line => simp [applyStreamOp, emittedLines]
      | subscribe i =>
          by_cases hany : ch.subscribers.any (fun t => t.subId == i) = true
          · simp [applyStreamOp, hany, emittedLines]
          · simp [applyStreamOp, hany, emittedLines]
      | unsubscribe i => simp [applyStreamOp, emittedLines]

/-- C3 (confirmed): replay-then-live with no gap and no duplicate.  In the
trace semantics where subscription (replay plus listener registration,
part_007:668-683, one synchronous block with no await) and `onEvent`
(append plus fan-out, part_007:440-443) are atomic steps, every consumer
still attached after an arbitrary interleaving of emissions, subscriptions
and unsubscriptions has observed exactly the full emission sequence in
order: its replay (the log at registration) followed by exactly the lines
emitted after its registration.  This holds for any number of concurrent
subscribers. -/
theorem jobStream_replay_then_live (ops : List StreamOp) (i : Nat)
    (s : StreamSubscriber)
    (h : findSubscriber (runStreamOps emptyChannel ops) i = some s) :
    observedEvents s = emittedLines ops := by
  have hmem : s ∈ (runStreamOps emptyChannel ops).subscribers :=
    List.mem_of_find?_eq_some h
  have hinv : channelInv (runStreamOps emptyChannel ops) :=
    runStreamOps_inv ops emptyChannel (by intro t ht; simp [emptyChannel] at ht)
  have hobs := hinv s hmem
  rw [hobs, runStreamOps_events]
  simp [emptyChannel]

theorem jobStream_replay_then_live_witness :
    observedEvents ⟨1, ["a"], ["b"]⟩
      = emittedLines [StreamOp.subscribe 0, StreamOp.emit "a",
          StreamOp.subscribe 1, StreamOp.emit "b"] :=
  jobStream_replay_then_live
    [StreamOp.subscribe 0, StreamOp.emit "a", StreamOp.subscribe 1, StreamOp.emit "b"]
    1 ⟨1, ["a"], ["b"]⟩ (by decide)

/-! ### Claim theorems: background dispatch lifecycle -/

/-- C10 (confirmed): the status `cancelled` is unreachable.  The only
statuses ever assigned are `queued` at creation (part_007:387), `running`
at dispatch (part_007:438), and `completed`/`failed` at termination
(part_007:454, 463); aborting the job's cancellation token mid-run merely
truncates the work's output (every `workEvents`/`workError` combination is
covered), so an aborted job still terminates `completed` or `failed`, never
`cancelled`. -/
theorem jobStatus_cancelled_unreachable (taskId sessionId : String)
    (t0 tStart tFinish : Nat) (workEvents : List String)
    (workError : Option String) :
    (createJob taskId sessionId t0).status = JobStatus.queued ∧
    (dispatchStart (createJob taskId sessionId t0) tStart).status
        = JobStatus.running ∧
    ((dispatchRun (createJob taskId sessionId t0) workEvents workError
        tStart tFinish).1.status = JobStatus.completed ∨
     (dispatchRun (createJob taskId sessionId t0) workEvents workError
        tStart tFinish).1.status = JobStatus.failed) ∧
    (createJob taskId sessionId t0).status ≠ JobStatus.cancelled ∧
    (dispatchStart (createJob taskId sessionId t0) tStart).status
        ≠ JobStatus.cancelled ∧
    (dispatchRun (createJob taskId sessionId t0) workEvents workError
        tStart tFinish).1.status ≠ JobStatus.cancelled := by
  cases workError with
  | none => simp [dispatchRun, dispatchStart, dispatchFinish, createJob]
  | some msg => simp [dispatchRun, dispatchStart, dispatchFinish, createJob]

/-! ### Claim theorems: Codex adapter exit handling and discovery -/

/-- C5 counterexample: an exit following cancellation (`aborted = true`,
exit code 0) yields no terminal `done` event at all — the claim requires
exactly one.  `queryCodex` guards the `done` yield with `if (!aborted)`
(codex.ts:365-367). -/
theorem codexExit_cancelled_yields_no_done :
    countDoneEvents (queryCodexFinish [] true 0).1 = 0 ∧
    (queryCodexFinish [] true 0).2 = none := by
  decide

/-- C5 (corrected): exit handling of the CLI process adapter.  A non-zero
exit not caused by cancellation propagates a fatal error; a zero exit
without cancellation yields exactly one terminal `done`; but any exit
following cancellation yields no further event and no error — the generator
simply finishes without a `done` sentinel (the tailer is stopped by the
caller's unconditional abort, part_007:157-159/596-598, not by a `done`
event). -/
theorem codexExit_behavior (pre : List CodexStreamEvent) (exitCode : Int)
    (hpre : countDoneEvents pre = 0) :
    ((queryCodexFinish pre false exitCode).2.isSome = (exitCode != 0)) ∧
    (countDoneEvents (queryCodexFinish pre false 0).1 = 1 ∧
      (queryCodexFinish pre false 0).2 = none) ∧
    (countDoneEvents (queryCodexFinish pre true exitCode).1 = 0 ∧
      (queryCodexFinish pre true exitCode).2 = none) := by
  refine ⟨?_, ⟨?_, ?_⟩, ?_, ?_⟩
  · by_cases h : exitCode = 0
    · simp [queryCodexFinish, h]
    · simp [queryCodexFinish, h]
  · simp [queryCodexFinish, countDoneEvents, List.countP_append]
    simpa [countDoneEvents] using hpre
  · simp [queryCodexFinish]
  · simpa [queryCodexFinish] using hpre
  · simp [queryCodexFinish]

theorem codexExit_behavior_witness :
    ((queryCodexFinish [] false 2).2.isSome = ((2 : Int) != 0)) ∧
    (countDoneEvents (queryCodexFinish [] false 0).1 = 1 ∧
      (queryCodexFinish [] false 0).2 = none) ∧
    (countDoneEvents (queryCodexFinish [] true 2).1 = 0 ∧
      (queryCodexFinish [] true 2).2 = none) :=
  codexExit_behavior [] 2 (by decide)

/-- C8 (code_bug): when the session log file never appears, the discovery
wait does reject with its timeout after the bounded wait (60s), but the
stderr handler attaches `.catch(err => console.error(...))`
(codex.ts:318-321), so the rejection is logged and swallowed: the turn does
not fail.  With a zero exit code the turn yields only the terminal `done`
and propagates no error — no `DiscoveryTimeout` reaches the caller, contrary
to the claim. -/
theorem discoveryTimeout_swallowed :
    waitForSessionFileById "p" none none 60000 250 = WaitResult.timedOut ∧
    queryCodexTurn "sid" (waitForSessionFileById "p" none none 60000 250) false 0
      = ([CodexStreamEvent.done], none) := by
  decide

/-! ### Supporting lemmas for the UTF-8 decoder -/

lemma utf8Decode_cons_ascii (b1 : Nat) (bs : List Nat) (h1 : b1 < 0x80) :
    utf8DecodeReplace (b1 :: bs) = Char.ofNat b1 :: utf8DecodeReplace bs := by
  conv_lhs => rw [utf8DecodeReplace.eq_def]
  simp only []
  rw [if_pos h1]

lemma utf8Decode_cons2 (b1 b2 : Nat) (bs : List Nat) (h1 : ¬ b1 < 0x80)
    (h2 : 0xC2 ≤ b1 ∧ b1 ≤ 0xDF) (h3 : 0x80 ≤ b2 ∧ b2 ≤ 0xBF) :
    utf8DecodeReplace (b1 :: b2 :: bs)
      = Char.ofNat ((b1 - 0xC0) * 0x40 + (b2 - 0x80)) :: utf8DecodeReplace bs := by
  conv_lhs => rw [utf8DecodeReplace.eq_def]
  simp only []
  rw [if_neg h1, if_pos h2, if_pos h3]

lemma utf8Decode_cons3 (b1 b2 b3 : Nat) (bs : List Nat) (h1 : ¬ b1 < 0x80)
    (h2 : ¬ (0xC2 ≤ b1 ∧ b1 ≤ 0xDF)) (h4 : 0xE0 ≤ b1 ∧ b1 ≤ 0xEF)
    (h5 : utf8Cont2Lo b1 ≤ b2 ∧ b2 ≤ utf8Cont2Hi b1) (h6 : 0x80 ≤ b3 ∧ b3 ≤ 0xBF) :
    utf8DecodeReplace (b1 :: b2 :: b3 :: bs)
      = Char.ofNat ((b1 - 0xE0) * 0x1000 + (b2 - 0x80) * 0x40 + (b3 - 0x80))
          :: utf8DecodeReplace bs := by
  conv_lhs => rw [utf8DecodeReplace.eq_def]
  simp only []
  rw [if_neg h1, if_neg h2, if_pos h4, if_pos h5, if_pos h6]

lemma utf8Decode_cons4 (b1 b2 b3 b4 : Nat) (bs : List Nat) (h1 : ¬ b1 < 0x80)
    (h2 : ¬ (0xC2 ≤ b1 ∧ b1 ≤ 0xDF)) (h4 : ¬ (0xE0 ≤ b1 ∧ b1 ≤ 0xEF))
    (h7 : 0xF0 ≤ b1 ∧ b1 ≤ 0xF4)
    (h5 : utf8Cont2Lo b1 ≤ b2 ∧ b2 ≤ utf8Cont2Hi b1) (h6 : 0x80 ≤ b3 ∧ b3 ≤ 0xBF)
    (h8 : 0x80 ≤ b4 ∧ b4 ≤ 0xBF) :
    utf8DecodeReplace (b1 :: b2 :: b3 :: b4 :: bs)
      = Char.ofNat ((b1 - 0xF0) * 0x40000 + (b2 - 0x80) * 0x1000
          + (b3 - 0x80) * 0x40 + (b4 - 0x80)) :: utf8DecodeReplace bs := by
  conv_lhs => rw [utf8DecodeReplace.eq_def]
  simp only []
  rw [if_neg h1, if_neg h2, if_neg h4, if_pos h7, if_pos h5, if_pos h6, if_pos h8]

lemma utf8WellFormed_cons_ascii (b1 : Nat) (bs : List Nat) (h1 : b1 < 0x80) :
    utf8WellFormed (b1 :: bs) = utf8WellFormed bs := by
  conv_lhs => rw [utf8WellFormed.eq_def]
  simp only []
  rw [if_pos h1]

lemma utf8WellFormed_cons2 (b1 b2 : Nat) (bs : List Nat) (h1 : ¬ b1 < 0x80)
    (h2 : 0xC2 ≤ b1 ∧ b1 ≤ 0xDF) (h3 : 0x80 ≤ b2 ∧ b2 ≤ 0xBF) :
    utf8WellFormed (b1 :: b2 :: bs) = utf8WellFormed bs := by
  conv_lhs => rw [utf8WellFormed.eq_def]
  simp only []
  rw [if_neg h1, if_pos h2, if_pos h3]

lemma utf8WellFormed_cons2_nil (b1 : Nat) (h1 : ¬ b1 < 0x80)
    (h2 : 0xC2 ≤ b1 ∧ b1 ≤ 0xDF) : utf8WellFormed [b1] = false := by
  conv_lhs => rw [utf8WellFormed.eq_def]
  simp only []
  rw [if_neg h1, if_pos h2]

lemma utf8WellFormed_cons2_bad (b1 b2 : Nat) (bs : List Nat) (h1 : ¬ b1 < 0x80)
    (h2 : 0xC2 ≤ b1 ∧ b1 ≤ 0xDF) (h3 : ¬ (0x80 ≤ b2 ∧ b2 ≤ 0xBF)) :
    utf8WellFormed (b1 :: b2 :: bs) = false := by
  conv_lhs => rw [utf8WellFormed.eq_def]
  simp only []
  rw [if_neg h1, if_pos h2, if_neg h3]

lemma utf8WellFormed_cons3 (b1 b2 b3 : Nat) (bs : List Nat) (h1 : ¬ b1 < 0x80)
    (h2 : ¬ (0xC2 ≤ b1 ∧ b1 ≤ 0xDF)) (h4 : 0xE0 ≤ b1 ∧ b1 ≤ 0xEF)
    (h5 : utf8Cont2Lo b1 ≤ b2 ∧ b2 ≤ utf8Cont2Hi b1) (h6 : 0x80 ≤ b3 ∧ b3 ≤ 0xBF) :
    utf8WellFormed (b1 :: b2 :: b3 :: bs) = utf8WellFormed bs := by
  conv_lhs => rw [utf8WellFormed.eq_def]
  simp only []
  rw [if_neg h1, if_neg h2, if_pos h4, if_pos h5, if_pos h6]

lemma utf8WellFormed_cons3_nil (b1 : Nat) (h1 : ¬ b1 < 0x80)
    (h2 : ¬ (0xC2 ≤ b1 ∧ b1 ≤ 0xDF)) (h4 : 0xE0 ≤ b1 ∧ b1 ≤ 0xEF) :
    utf8WellFormed [b1] = false := by
  conv_lhs => rw [utf8WellFormed.eq_def]
  simp only []
  rw [if_neg h1, if_neg h2, if_pos h4]

lemma utf8WellFormed_cons3_nil2 (b1 b2 : Nat) (h1 : ¬ b1 < 0x80)
    (h2 : ¬ (0xC2 ≤ b1 ∧ b1 ≤ 0xDF)) (h4 : 0xE0 ≤ b1 ∧ b1 ≤ 0xEF)
    (h5 : utf8Cont2Lo b1 ≤ b2 ∧ b2 ≤ utf8Cont2Hi b1) :
    utf8WellFormed [b1, b2] = false := by
  conv_lhs => rw [utf8WellFormed.eq_def]
  simp only []
  rw [if_neg h1, if_neg h2, if_pos h4, if_pos h5]

lemma utf8WellFormed_cons3_bad2 (b1 b2 : Nat) (bs : List Nat) (h1 : ¬ b1 < 0x80)
    (h2 : ¬ (0xC2 ≤ b1 ∧ b1 ≤ 0xDF)) (h4 : 0xE0 ≤ b1 ∧ b1 ≤ 0xEF)
    (h5 : ¬ (utf8Cont2Lo b1 ≤ b2 ∧ b2 ≤ utf8Cont2Hi b1)) :
    utf8WellFormed (b1 :: b2 :: bs) = false := by
  conv_lhs => rw [utf8WellFormed.eq_def]
  simp only []
  rw [if_neg h1, if_neg h2, if_pos h4, if_neg h5]

lemma utf8WellFormed_cons3_bad3 (b1 b2 b3 : Nat) (bs : List Nat) (h1 : ¬ b1 < 0x80)
    (h2 : ¬ (0xC2 ≤ b1 ∧ b1 ≤ 0xDF)) (h4 : 0xE0 ≤ b1 ∧ b1 ≤ 0xEF)
    (h5 : utf8Cont2Lo b1 ≤ b2 ∧ b2 ≤ utf8Cont2Hi b1)
    (h6 : ¬ (0x80 ≤ b3 ∧ b3 ≤ 0xBF)) :
    utf8WellFormed (b1 :: b2 :: b3 :: bs) = false := by
  conv_lhs => rw [utf8WellFormed.eq_def]
  simp only []
  rw [if_neg h1, if_neg h2, if_pos h4, if_pos h5, if_neg h6]

lemma utf8WellFormed_cons4 (b1 b2 b3 b4 : Nat) (bs : List Nat) (h1 : ¬ b1 < 0x80)
    (h2 : ¬ (0xC2 ≤ b1 ∧ b1 ≤ 0xDF)) (h4 : ¬ (0xE0 ≤ b1 ∧ b1 ≤ 0xEF))
    (h7 : 0xF0 ≤ b1 ∧ b1 ≤ 0xF4)
    (h5 : utf8Cont2Lo b1 ≤ b2 ∧ b2 ≤ utf8Cont2Hi b1) (h6 : 0x80 ≤ b3 ∧ b3 ≤ 0xBF)
    (h8 : 0x80 ≤ b4 ∧ b4 ≤ 0xBF) :
    utf8WellFormed (b1 :: b2 :: b3 :: b4 :: bs) = utf8WellFormed bs := by
  conv_lhs => rw [utf8WellFormed.eq_def]
  simp only []
  rw [if_neg h1, if_neg h2, if_neg h4, if_pos h7, if_pos h5, if_pos h6, if_pos h8]

lemma utf8WellFormed_cons4_short (b1 : Nat) (h1 : ¬ b1 < 0x80)
    (h2 : ¬ (0xC2 ≤ b1 ∧ b1 ≤ 0xDF)) (h4 : ¬ (0xE0 ≤ b1 ∧ b1 ≤ 0xEF))
    (h7 : 0xF0 ≤ b1 ∧ b1 ≤ 0xF4) :
    utf8WellFormed [b1] = false := by
  conv_lhs => rw [utf8WellFormed.eq_def]
  simp only []
  rw [if_neg h1, if_neg h2, if_neg h4, if_pos h7]

lemma utf8WellFormed_cons4_short2 (b1 b2 : Nat) (h1 : ¬ b1 < 0x80)
    (h2 : ¬ (0xC2 ≤ b1 ∧ b1 ≤ 0xDF)) (h4 : ¬ (0xE0 ≤ b1 ∧ b1 ≤ 0xEF))
    (h7 : 0xF0 ≤ b1 ∧ b1 ≤ 0xF4)
    (h5 : utf8Cont2Lo b1 ≤ b2 ∧ b2 ≤ utf8Cont2Hi b1) :
    utf8WellFormed [b1, b2] = false := by
  conv_lhs => rw [utf8WellFormed.eq_def]
  simp only []
  rw [if_neg h1, if_neg h2, if_neg h4, if_pos h7, if_pos h5]

lemma utf8WellFormed_cons4_short3 (b1 b2 b3 : Nat) (h1 : ¬ b1 < 0x80)
    (h2 : ¬ (0xC2 ≤ b1 ∧ b1 ≤ 0xDF)) (h4 : ¬ (0xE0 ≤ b1 ∧ b1 ≤ 0xEF))
    (h7 : 0xF0 ≤ b1 ∧ b1 ≤ 0xF4)
    (h5 : utf8Cont2Lo b1 ≤ b2 ∧ b2 ≤ utf8Cont2Hi b1)
    (h6 : 0x80 ≤ b3 ∧ b3 ≤ 0xBF) :
    utf8WellFormed [b1, b2, b3] = false := by
  conv_lhs => rw [utf8WellFormed.eq_def]
  simp only []
  rw [if_neg h1, if_neg h2, if_neg h4, if_pos h7, if_pos h5, if_pos h6]

lemma utf8WellFormed_cons4_bad2 (b1 b2 : Nat) (bs : List Nat) (h1 : ¬ b1 < 0x80)
    (h2 : ¬ (0xC2 ≤ b1 ∧ b1 ≤ 0xDF)) (h4 : ¬ (0xE0 ≤ b1 ∧ b1 ≤ 0xEF))
    (h7 : 0xF0 ≤ b1 ∧ b1 ≤ 0xF4)
    (h5 : ¬ (utf8Cont2Lo b1 ≤ b2 ∧ b2 ≤ utf8Cont2Hi b1)) :
    utf8WellFormed (b1 :: b2 :: bs) = false := by
  conv_lhs => rw [utf8WellFormed.eq_def]
  simp only []
  rw [if_neg h1, if_neg h2, if_neg h4, if_pos h7, if_neg h5]

lemma utf8WellFormed_cons4_bad3 (b1 b2 b3 : Nat) (bs : List Nat) (h1 : ¬ b1 < 0x80)
    (h2 : ¬ (0xC2 ≤ b1 ∧ b1 ≤ 0xDF)) (h4 : ¬ (0xE0 ≤ b1 ∧ b1 ≤ 0xEF))
    (h7 : 0xF0 ≤ b1 ∧ b1 ≤ 0xF4)
    (h5 : utf8Cont2Lo b1 ≤ b2 ∧ b2 ≤ utf8Cont2Hi b1)
    (h6 : ¬ (0x80 ≤ b3 ∧ b3 ≤ 0xBF)) :
    utf8WellFormed (b1 :: b2 :: b3 :: bs) = false := by
  conv_lhs => rw [utf8WellFormed.eq_def]
  simp only []
  rw [if_neg h1, if_neg h2, if_neg h4, if_pos h7, if_pos h5, if_neg h6]

lemma utf8WellFormed_cons4_bad4 (b1 b2 b3 b4 : Nat) (bs : List Nat)
    (h1 : ¬ b1 < 0x80) (h2 : ¬ (0xC2 ≤ b1 ∧ b1 ≤ 0xDF))
    (h4 : ¬ (0xE0 ≤ b1 ∧ b1 ≤ 0xEF)) (h7 : 0xF0 ≤ b1 ∧ b1 ≤ 0xF4)
    (h5 : utf8Cont2Lo b1 ≤ b2 ∧ b2 ≤ utf8Cont2Hi b1) (h6 : 0x80 ≤ b3 ∧ b3 ≤ 0xBF)
    (h8 : ¬ (0x80 ≤ b4 ∧ b4 ≤ 0xBF)) :
    utf8WellFormed (b1 :: b2 :: b3 :: b4 :: bs) = false := by
  conv_lhs => rw [utf8WellFormed.eq_def]
  simp only []
  rw [if_neg h1, if_neg h2, if_neg h4, if_pos h7, if_pos h5, if_pos h6, if_neg h8]

lemma utf8WellFormed_cons_invalid (b1 : Nat) (bs : List Nat) (h1 : ¬ b1 < 0x80)
    (h2 : ¬ (0xC2 ≤ b1 ∧ b1 ≤ 0xDF)) (h4 : ¬ (0xE0 ≤ b1 ∧ b1 ≤ 0xEF))
    (h7 : ¬ (0xF0 ≤ b1 ∧ b1 ≤ 0xF4)) :
    utf8WellFormed (b1 :: bs) = false := by
  conv_lhs => rw [utf8WellFormed.eq_def]
  simp only []
  rw [if_neg h1, if_neg h2, if_neg h4, if_neg h7]

/-- A well-formed byte sequence decodes independently of what follows it:
decoding distributes over the concatenation. -/
lemma utf8DecodeReplace_append_fuel (n : Nat) :
    ∀ (a b : List Nat), a.length ≤ n → utf8WellFormed a = true →
    utf8DecodeReplace (a ++ b) = utf8DecodeReplace a ++ utf8DecodeReplace b := by
  induction n with
  | zero =>
      intro a b hlen _
      have hnil : a = [] := List.length_eq_zero.mp (Nat.le_zero.mp hlen)
      subst hnil
      simp [utf8DecodeReplace]
  | succ n ih =>
    intro a b hlen ha
    cases a with
    | nil => simp [utf8DecodeReplace]
    | cons b1 bs =>
      simp only [List.length_cons] at hlen
      by_cases h1 : b1 < 0x80
      · rw [utf8WellFormed_cons_ascii b1 bs h1] at ha
        rw [List.cons_append, utf8Decode_cons_ascii b1 (bs ++ b) h1,
          utf8Decode_cons_ascii b1 bs h1]
        rw [ih bs b (by omega) ha]
        simp
      · by_cases h2 : 0xC2 ≤ b1 ∧ b1 ≤ 0xDF
        · cases bs with
          | nil =>
              rw [utf8WellFormed_cons2_nil b1 h1 h2] at ha
              exact Bool.noConfusion ha
          | cons b2 bs2 =>
            by_cases h3 : 0x80 ≤ b2 ∧ b2 ≤ 0xBF
            · rw [utf8WellFormed_cons2 b1 b2 bs2 h1 h2 h3] at ha
              simp only [List.length_cons] at hlen
              rw [List.cons_append, List.cons_append,
                utf8Decode_cons2 b1 b2 (bs2 ++ b) h1 h2 h3,
                utf8Decode_cons2 b1 b2 bs2 h1 h2 h3]
              rw [ih bs2 b (by omega) ha]
              simp
            · rw [utf8WellFormed_cons2_bad b1 b2 bs2 h1 h2 h3] at ha
              exact Bool.noConfusion ha
        · by_cases h4 : 0xE0 ≤ b1 ∧ b1 ≤ 0xEF
          · cases bs with
            | nil =>
                rw [utf8WellFormed_cons3_nil b1 h1 h2 h4] at ha
                exact Bool.noConfusion ha
            | cons b2 bs2 =>
              by_cases h5 : utf8Cont2Lo b1 ≤ b2 ∧ b2 ≤ utf8Cont2Hi b1
              · cases bs2 with
                | nil =>
                    rw [utf8WellFormed_cons3_nil2 b1 b2 h1 h2 h4 h5] at ha
                    exact Bool.noConfusion ha
                | cons b3 bs3 =>
                  by_cases h6 : 0x80 ≤ b3 ∧ b3 ≤ 0xBF
                  · rw [utf8WellFormed_cons3 b1 b2 b3 bs3 h1 h2 h4 h5 h6] at ha
                    simp only [List.length_cons] at hlen
                    rw [List.cons_append, List.cons_append, List.cons_append,
                      utf8Decode_cons3 b1 b2 b3 (bs3 ++ b) h1 h2 h4 h5 h6,
                      utf8Decode_cons3 b1 b2 b3 bs3 h1 h2 h4 h5 h6]
                    rw [ih bs3 b (by omega) ha]
                    simp
                  · rw [utf8WellFormed_cons3_bad3 b1 b2 b3 bs3 h1 h2 h4 h5 h6] at ha
                    exact Bool.noConfusion ha
              · rw [utf8WellFormed_cons3_bad2 b1 b2 bs2 h1 h2 h4 h5] at ha
                exact Bool.noConfusion ha
          · by_cases h7 : 0xF0 ≤ b1 ∧ b1 ≤ 0xF4
            · cases bs with
              | nil =>
                  rw [utf8WellFormed_cons4_short b1 h1 h2 h4 h7] at ha
                  exact Bool.noConfusion ha
              | cons b2 bs2 =>
                by_cases h5 : utf8Cont2Lo b1 ≤ b2 ∧ b2 ≤ utf8Cont2Hi b1
                · cases bs2 with
                  | nil =>
                      rw [utf8WellFormed_cons4_short2 b1 b2 h1 h2 h4 h7 h5] at ha
                      exact Bool.noConfusion ha
                  | cons b3 bs3 =>
                    by_cases h6 : 0x80 ≤ b3 ∧ b3 ≤ 0xBF
                    · cases bs3 with
                      | nil =>
                          rw [utf8WellFormed_cons4_short3 b1 b2 b3 h1 h2 h4 h7 h5 h6] at ha
                          exact Bool.noConfusion ha
                      | cons b4 bs4 =>
                        by_cases h8 : 0x80 ≤ b4 ∧ b4 ≤ 0xBF
                        · rw [utf8WellFormed_cons4 b1 b2 b3 b4 bs4 h1 h2 h4 h7 h5 h6 h8] at ha
                          simp only [List.length_cons] at hlen
                          rw [List.cons_append, List.cons_append, List.cons_append,
                            List.cons_append,
                            utf8Decode_cons4 b1 b2 b3 b4 (bs4 ++ b) h1 h2 h4 h7 h5 h6 h8,
                            utf8Decode_cons4 b1 b2 b3 b4 bs4 h1 h2 h4 h7 h5 h6 h8]
                          rw [ih bs4 b (by omega) ha]
                          simp
                        · rw [utf8WellFormed_cons4_bad4 b1 b2 b3 b4 bs4 h1 h2 h4 h7 h5 h6 h8] at ha
                          exact Bool.noConfusion ha
                    · rw [utf8WellFormed_cons4_bad3 b1 b2 b3 bs3 h1 h2 h4 h7 h5 h6] at ha
                      exact Bool.noConfusion ha
                · rw [utf8WellFormed_cons4_bad2 b1 b2 bs2 h1 h2 h4 h7 h5] at ha
                  exact Bool.noConfusion ha
            · rw [utf8WellFormed_cons_invalid b1 bs h1 h2 h4 h7] at ha
              exact Bool.noConfusion ha

lemma utf8DecodeReplace_append (a b : List Nat) (ha : utf8WellFormed a = true) :
    utf8DecodeReplace (a ++ b) = utf8DecodeReplace a ++ utf8DecodeReplace b :=
  utf8DecodeReplace_append_fuel a.length a b (Nat.le_refl _) ha

/-! ### Supporting lemmas for the tailer -/

lemma lineSplit_append (x y : List Char) :
    lineSplit (x ++ y)
      = ((lineSplit x).1 ++ (lineSplit ((lineSplit x).2 ++ y)).1,
         (lineSplit ((lineSplit x).2 ++ y)).2) := by
  induction x with
  | nil => simp [lineSplit]
  | cons c cs ih =>
    by_cases hc : c = '\n'
    · simp [lineSplit, hc, ih]
    · cases hA : (lineSplit cs).1 with
      | nil => simp [lineSplit, hc, ih, hA]
      | cons a as => simp [lineSplit, hc, ih, hA]

lemma lineSplit_rest_no_newline (l : List Char) : '\n' ∉ (lineSplit l).2 := by
  induction l with
  | nil => simp [lineSplit]
  | cons c cs ih =>
    by_cases hc : c = '\n'
    · simp [lineSplit, hc, ih]
    · cases hA : (lineSplit cs).1 with
      | nil =>
          simp [lineSplit, hc, hA]
          exact ⟨fun h => hc h.symm, by simpa [hA] using ih⟩
      | cons a as =>
          simpa [lineSplit, hc, hA] using ih

lemma lineSplit_no_newline (p : List Char) (hp : '\n' ∉ p) :
    lineSplit p = ([], p) := by
  induction p with
  | nil => simp [lineSplit]
  | cons c cs ih =>
    have hc : ¬ c = '\n' := fun h => hp (h ▸ List.mem_cons_self c cs)
    have hcs : '\n' ∉ cs := fun h => hp (List.mem_cons_of_mem _ h)
    simp [lineSplit, hc, ih hcs]

lemma emitLines_append (l1 l2 : List (List Char)) :
    emitLines (l1 ++ l2) = emitLines l1 ++ emitLines l2 := by
  simp [emitLines, List.filter_append]

lemma consumeChunk_append (s : TailState) (a b : List Nat)
    (ha : utf8WellFormed a = true) :
    consumeChunk (consumeChunk s a) b = consumeChunk s (a ++ b) := by
  cases s with
  | mk ho off p o =>
    have hd := utf8DecodeReplace_append a b ha
    have h := lineSplit_append (p ++ utf8DecodeReplace a) (utf8DecodeReplace b)
    rw [List.append_assoc] at h
    simp [consumeChunk, hd, h, emitLines_append, List.append_assoc]

lemma consumeChunk_handleOpen (s : TailState) (c : List Nat) :
    (consumeChunk s c).handleOpen = s.handleOpen := rfl

lemma consumeChunk_pending (s : TailState) (c : List Nat) :
    (consumeChunk s c).pending
      = (lineSplit (s.pending ++ utf8DecodeReplace c)).2 := rfl

lemma consumeChunk_set_offset (s : TailState) (o : Nat) (c : List Nat) :
    consumeChunk { s with offset := o } c
      = { consumeChunk s c with offset := o } := rfl

lemma consumeChunk_nil (s : TailState) (hp : '\n' ∉ s.pending) :
    consumeChunk s [] = s := by
  cases s with
  | mk ho off p o =>
    simp only [consumeChunk]
    simp at hp
    simp [utf8DecodeReplace, lineSplit_no_newline p hp, emitLines]

lemma readChunks_single (content : List Nat) (cap pos remaining : Nat)
    (s : TailState) (h0 : 0 < remaining) (hcap : remaining ≤ cap) :
    readChunks content cap pos remaining s
      = { consumeChunk s ((content.drop pos).take remaining) with
            offset := pos + remaining } := by
  rw [readChunks]
  rw [if_neg (by omega)]
  have hmin : min cap remaining = remaining := by omega
  rw [hmin]
  show readChunks content cap (pos + remaining) (remaining - remaining)
      (consumeChunk s ((content.drop pos).take remaining))
    = { consumeChunk s ((content.drop pos).take remaining) with
          offset := pos + remaining }
  rw [Nat.sub_self]
  rw [readChunks]
  rw [if_pos (Or.inl rfl)]

lemma openIfNeeded_of_open (initial startAtEnd : Bool) (file : Option (List Nat))
    (s : TailState) (h : s.handleOpen = true) :
    openIfNeeded initial startAtEnd file s = s := by
  simp [openIfNeeded, h]

lemma readNew_append (startAtEnd : Bool) (base d : List Nat) (s : TailState)
    (hopen : s.handleOpen = true) (hoff : s.offset = base.length)
    (hp : '\n' ∉ s.pending) (hlen : d.length ≤ 1048576) :
    readNew startAtEnd (some (base ++ d)) s
      = { consumeChunk s d with offset := base.length + d.length } := by
  by_cases hd : d = []
  · subst hd
    simp only [readNew, openIfNeeded_of_open _ _ _ _ hopen, hopen]
    rw [if_neg (by simp [hopen])]
    rw [if_pos (by simp [hoff])]
    rw [consumeChunk_nil s hp]
    cases s with
    | mk ho off p o =>
        simp at hoff
        simp [hoff]
  · have hlen0 : 0 < d.length := List.length_pos.mpr hd
    simp only [readNew, openIfNeeded_of_open _ _ _ _ hopen, hopen]
    rw [if_neg (by simp [hopen])]
    have hcond : ¬ ((base ++ d).length ≤ s.offset) := by
      rw [hoff, List.length_append]
      omega
    rw [if_neg hcond]
    have htr : (base ++ d).length - s.offset = d.length := by
      rw [hoff, List.length_append]
      omega
    rw [htr]
    have hcap : d.length ≤ bufCap d.length := by
      simp [bufCap]
      omega
    rw [readChunks_single (base ++ d) (bufCap d.length) s.offset d.length s
      hlen0 hcap]
    rw [hoff, List.drop_left, List.take_length]

lemma runAppends_eq_consume (startAtEnd : Bool) (ds : List (List Nat)) :
    ∀ (base : List Nat) (s : TailState), s.handleOpen = true →
      s.offset = base.length → '\n' ∉ s.pending →
      (∀ d ∈ ds, utf8WellFormed d = true ∧ d.length ≤ 1048576) →
      runAppends startAtEnd base ds s
        = { consumeChunk s ds.flatten with
              offset := base.length + ds.flatten.length } := by
  induction ds with
  | nil =>
      intro base s h1 h2 h3 _
      rw [runAppends]
      rw [List.flatten_nil]
      rw [consumeChunk_nil s h3]
      cases s with
      | mk ho off p o =>
          simp at h2
          simp [h2]
  | cons d ds ih =>
      intro base s h1 h2 h3 hwf
      rw [runAppends]
      rw [readNew_append startAtEnd base d s h1 h2 h3 (hwf d (by simp)).2]
      rw [ih (base ++ d) _ (by rw [consumeChunk_handleOpen]; exact h1)
        (by rw [List.length_append])
        (by rw [consumeChunk_pending]; exact lineSplit_rest_no_newline _)
        (fun e he => hwf e (List.mem_cons_of_mem _ he))]
      rw [consumeChunk_set_offset]
      rw [consumeChunk_append _ _ _ (hwf d (by simp)).1]
      rw [List.flatten_cons]
      have hoff : (base ++ d).length + ds.flatten.length
          = base.length + (d ++ ds.flatten).length := by
        simp [List.length_append]
        omega
      rw [hoff]

lemma lineSplit_eq_splitOn (l : List Char) :
    (lineSplit l).1 = (l.splitOn '\n').dropLast ∧
    (lineSplit l).2 = (l.splitOn '\n').getLastD [] := by
  induction l with
  | nil => simp [lineSplit, List.splitOn, List.splitOnP_nil]
  | cons c cs ih =>
    have hne : cs.splitOn '\n' ≠ [] := List.splitOnP_ne_nil _ cs
    by_cases hc : c = '\n'
    · have hsplit : (c :: cs).splitOn '\n' = [] :: cs.splitOn '\n' := by
        simp [List.splitOn, List.splitOnP_cons, hc]
      rw [hsplit]
      constructor
      · rw [show ([] :: cs.splitOn '\n').dropLast
            = [] :: (cs.splitOn '\n').dropLast from by
          cases h : cs.splitOn '\n' with
          | nil => exact absurd h hne
          | cons b m => rfl]
        simp [lineSplit, hc, ih.1]
      · rw [show ([] :: cs.splitOn '\n').getLastD []
            = (cs.splitOn '\n').getLastD [] from by
          cases h : cs.splitOn '\n' with
          | nil => exact absurd h hne
          | cons b m => rfl]
        simp [lineSplit, hc, ih.2]
    · have hsplit : (c :: cs).splitOn '\n'
          = (cs.splitOn '\n').modifyHead (List.cons c) := by
        simp [List.splitOn, List.splitOnP_cons, hc]
      cases hS : cs.splitOn '\n' with
      | nil => exact absurd hS hne
      | cons s1 rest =>
        rw [hsplit, hS, List.modifyHead_cons]
        cases rest with
        | nil =>
            have h1 : (lineSplit cs).1 = [] := by
              have := ih.1
              rw [hS] at this
              simpa using this
            have h2 : (lineSplit cs).2 = s1 := by
              have := ih.2
              rw [hS] at this
              simpa using this
            simp [lineSplit, hc, h1, h2]
        | cons s2 rest2 =>
            have h1 : (lineSplit cs).1 = s1 :: (s2 :: rest2).dropLast := by
              have := ih.1
              rw [hS] at this
              simpa using this
            have h2 : (lineSplit cs).2 = (s2 :: rest2).getLastD [] := by
              have := ih.2
              rw [hS] at this
              simpa using this
            simp [lineSplit, hc, h1, h2]

lemma emitLines_lineSplit (l : List Char) :
    emitLines (lineSplit l).1 = fullReadLines l := by
  rw [emitLines, (lineSplit_eq_splitOn l).1, fullReadLines]

/-! ### Claim theorems: tailer -/

/-- C7 (corrected): tailer completeness and no-loss, under the proviso the
per-chunk UTF-8 decoding forces.  For a tail run that begins at offset zero
(the tracked file is empty at start) and processes a sequence of appended
byte deltas — each change-notification read pass sees the bytes appended so
far, and coalesced notification bursts are merged deltas — in which every
delta is well-formed UTF-8 no longer than the 1 MiB read buffer (so no
multi-byte character is split across a read pass or chunk boundary), the
lines yielded equal the decoded final file content split on newlines,
trimmed, with empty lines dropped and the trailing (possibly incomplete)
segment excluded; the final offset equals the total byte count (every
appended byte consumed exactly once, the byte offset as sole bookkeeping)
and the pending buffer holds exactly the trailing partial segment.  Without
the proviso the claimed equivalence to a full read is false — the source
decodes each chunk separately, garbling split characters (see the
counterexample). -/
theorem tailer_completeness_wellformed (ds : List (List Nat))
    (hwf : ∀ d ∈ ds, utf8WellFormed d = true ∧ d.length ≤ 1048576) :
    (runAppends true [] ds (tailJsonlFileStart true (some []))).out
        = fullReadLines (utf8DecodeReplace ds.flatten) ∧
    (runAppends true [] ds (tailJsonlFileStart true (some []))).offset
        = ds.flatten.length ∧
    (runAppends true [] ds (tailJsonlFileStart true (some []))).pending
        = ((utf8DecodeReplace ds.flatten).splitOn '\n').getLastD [] := by
  have h0 : tailJsonlFileStart true (some [])
      = (⟨true, 0, [], []⟩ : TailState) := rfl
  rw [h0]
  rw [runAppends_eq_consume true ds [] ⟨true, 0, [], []⟩ rfl rfl (by simp) hwf]
  refine ⟨?_, by simp, ?_⟩
  · show emitLines (lineSplit ([] ++ utf8DecodeReplace ds.flatten)).1
        = fullReadLines (utf8DecodeReplace ds.flatten)
    rw [List.nil_append, emitLines_lineSplit]
  · show (lineSplit ([] ++ utf8DecodeReplace ds.flatten)).2
        = ((utf8DecodeReplace ds.flatten).splitOn '\n').getLastD []
    rw [List.nil_append, (lineSplit_eq_splitOn (utf8DecodeReplace ds.flatten)).2]

theorem tailer_completeness_wellformed_witness :
    (runAppends true [] [[0x61, 0x0A]] (tailJsonlFileStart true (some []))).out
        = fullReadLines (utf8DecodeReplace ([[0x61, 0x0A]] : List (List Nat)).flatten) ∧
    (runAppends true [] [[0x61, 0x0A]] (tailJsonlFileStart true (some []))).offset
        = ([[0x61, 0x0A]] : List (List Nat)).flatten.length ∧
    (runAppends true [] [[0x61, 0x0A]] (tailJsonlFileStart true (some []))).pending
        = ((utf8DecodeReplace ([[0x61, 0x0A]] : List (List Nat)).flatten).splitOn
            '\n').getLastD [] :=
  tailer_completeness_wellformed [[0x61, 0x0A]] (by decide)

/-- C7 counterexample: the two-byte UTF-8 character é (bytes C3 A9) is
split across two read passes: the file content "aé\n" (bytes 61 C3 A9 0A)
arrives as deltas [61, C3] and [A9, 0A].  The source decodes each read
chunk separately, so the tailer yields the line a�� (two U+FFFD replacement
characters), while a full read of the final content yields aé — refuting
"the sequence of yielded lines equals the final file content split on
newlines" for these appended bytes. -/
theorem tailer_chunk_decode_garbles :
    (runAppends true [] [[0x61, 0xC3], [0xA9, 0x0A]]
        (tailJsonlFileStart true (some []))).out
      = [['a', replacementChar, replacementChar]] ∧
    fullReadLines (utf8DecodeReplace
        ([[0x61, 0xC3], [0xA9, 0x0A]] : List (List Nat)).flatten)
      = [['a', 'é']] ∧
    ([['a', replacementChar, replacementChar]] : List (List Char))
      ≠ [['a', 'é']] := by
  refine ⟨?_, by decide, by decide⟩
  have h0 : tailJsonlFileStart true (some ([] : List Nat))
      = (⟨true, 0, [], []⟩ : TailState) := by decide
  have h1 : readNew true (some [0x61, 0xC3]) (⟨true, 0, [], []⟩ : TailState)
      = ⟨true, 2, ['a', replacementChar], []⟩ := by
    have h := readNew_append true [] [0x61, 0xC3] ⟨true, 0, [], []⟩ rfl rfl
      (by decide) (by decide)
    simp only [List.nil_append] at h
    rw [h]
    decide
  have h2 : readNew true (some [0x61, 0xC3, 0xA9, 0x0A])
      (⟨true, 2, ['a', replacementChar], []⟩ : TailState)
      = ⟨true, 4, [], [['a', replacementChar, replacementChar]]⟩ := by
    have h := readNew_append true [0x61, 0xC3] [0xA9, 0x0A]
      ⟨true, 2, ['a', replacementChar], []⟩ rfl rfl (by decide) (by decide)
    simp only [List.cons_append, List.nil_append] at h
    rw [h]
    decide
  have e1 : runAppends true [] [[0x61, 0xC3], [0xA9, 0x0A]]
      (tailJsonlFileStart true (some []))
      = readNew true (some [0x61, 0xC3, 0xA9, 0x0A])
          (readNew true (some [0x61, 0xC3]) (tailJsonlFileStart true (some []))) := by
    simp only [runAppends, List.nil_append, List.cons_append]
  rw [e1, h0, h1, h2]

/-- C6 (corrected): rotation handling.  On the watcher's `rename` event the
tailer does discard the handle and pending buffer and reset the offset, but
the reopen runs `openIfNeeded(true)` (codex.ts:517) which, in the
`startAtEnd` mode used for generation tails, sets the offset to the
recreated file's size at reopen.  Hence after a rotation the tailer emits
exactly the decoded content appended after the reopen (under the same
well-formed-UTF-8 proviso per delta that per-chunk decoding forces, see
C7) — no pre-rotation line is emitted twice, but lines already present in
the recreated file at reopen are skipped (see the counterexample), not
"exactly the content written after recreation" as claimed. -/
theorem tailer_rotation_emits_post_reopen (s : TailState) (c0 : List Nat)
    (ds : List (List Nat))
    (hwf : ∀ d ∈ ds, utf8WellFormed d = true ∧ d.length ≤ 1048576) :
    (runAppends true c0 ds (tailStep true (some c0) s FsEvent.rename)).out
        = s.out ++ fullReadLines (utf8DecodeReplace ds.flatten) ∧
    (runAppends true c0 ds (tailStep true (some c0) s FsEvent.rename)).offset
        = c0.length + ds.flatten.length := by
  have hstep : tailStep true (some c0) s FsEvent.rename
      = (⟨true, c0.length, [], s.out⟩ : TailState) := by
    show readNew true (some c0)
        (openIfNeeded true true (some c0) ⟨false, 0, [], s.out⟩) = _
    have hopen : openIfNeeded true true (some c0) ⟨false, 0, [], s.out⟩
        = (⟨true, c0.length, [], s.out⟩ : TailState) := by
      simp [openIfNeeded]
    rw [hopen]
    simp [readNew, openIfNeeded]
  rw [hstep]
  rw [runAppends_eq_consume true ds c0 ⟨true, c0.length, [], s.out⟩ rfl rfl
    (by simp) hwf]
  constructor
  · show s.out ++ emitLines (lineSplit ([] ++ utf8DecodeReplace ds.flatten)).1
        = s.out ++ fullReadLines (utf8DecodeReplace ds.flatten)
    rw [List.nil_append, emitLines_lineSplit]
  · rfl

theorem tailer_rotation_emits_post_reopen_witness :
    (runAppends true [0x62, 0x0A] [[0x63, 0x0A]]
        (tailStep true (some [0x62, 0x0A])
          (⟨false, 3, ['x'], [['p']]⟩ : TailState) FsEvent.rename)).out
      = (⟨false, 3, ['x'], [['p']]⟩ : TailState).out
          ++ fullReadLines (utf8DecodeReplace ([[0x63, 0x0A]] : List (List Nat)).flatten) ∧
    (runAppends true [0x62, 0x0A] [[0x63, 0x0A]]
        (tailStep true (some [0x62, 0x0A])
          (⟨false, 3, ['x'], [['p']]⟩ : TailState) FsEvent.rename)).offset
      = ([0x62, 0x0A] : List Nat).length
          + ([[0x63, 0x0A]] : List (List Nat)).flatten.length :=
  tailer_rotation_emits_post_reopen ⟨false, 3, ['x'], [['p']]⟩ [0x62, 0x0A]
    [[0x63, 0x0A]] (by decide)

/-- C6 counterexample: the file first contains "a\n" (bytes 61 0A; line a
emitted), is deleted (ENOENT pass resets the state), and is recreated with
content "b\n" (bytes 62 0A); the rename handler reopens it at offset 2,
then "c\n" (bytes 63 0A) is appended.  The tailer emits only c; the content
written after recreation is "b\nc\n", whose lines are b, c — so b is
skipped, refuting "emits exactly the content written after recreation ...
no post-recreation content is skipped". -/
theorem tailer_rotation_skips_recreated_content :
    (readNew true (some [0x62, 0x0A, 0x63, 0x0A])
        (tailStep true (some [0x62, 0x0A])
          (readNew true none
            (readNew true (some [0x61, 0x0A])
              (tailJsonlFileStart true (some []))))
          FsEvent.rename)).out = [['a'], ['c']] ∧
    fullReadLines (utf8DecodeReplace [0x62, 0x0A, 0x63, 0x0A]) = [['b'], ['c']] ∧
    ([['a'], ['c']] : List (List Char)) ≠ [['a'], ['b'], ['c']] := by
  refine ⟨?_, by decide, by decide⟩
  have h0 : tailJsonlFileStart true (some ([] : List Nat))
      = (⟨true, 0, [], []⟩ : TailState) := by decide
  have h1 : readNew true (some [0x61, 0x0A]) (⟨true, 0, [], []⟩ : TailState)
      = ⟨true, 2, [], [['a']]⟩ := by
    have h := readNew_append true [] [0x61, 0x0A] ⟨true, 0, [], []⟩ rfl rfl
      (by decide) (by decide)
    simp only [List.nil_append] at h
    rw [h]
    decide
  have h2 : readNew true none (⟨true, 2, [], [['a']]⟩ : TailState)
      = ⟨false, 0, [], [['a']]⟩ := by decide
  have h3 : tailStep true (some [0x62, 0x0A]) (⟨false, 0, [], [['a']]⟩ : TailState)
      FsEvent.rename = ⟨true, 2, [], [['a']]⟩ := by decide
  have h4 : readNew true (some [0x62, 0x0A, 0x63, 0x0A])
      (⟨true, 2, [], [['a']]⟩ : TailState) = ⟨true, 4, [], [['a'], ['c']]⟩ := by
    have h := readNew_append true [0x62, 0x0A] [0x63, 0x0A] ⟨true, 2, [], [['a']]⟩
      rfl rfl (by decide) (by decide)
    simp only [List.cons_append, List.nil_append] at h
    rw [h]
    decide
  rw [h0, h1, h2, h3, h4]

end AgentServer
